import Mathlib

/-!
Verification of the ceed-ads ad-decision pipeline.

This file gives a shallow embedding of the core decision pipeline of the
repository — opportunity scoring, candidate generation, ranking,
epsilon-greedy selection, the orchestrator `decideAdV2`, the feature-flag
gate `isV2Enabled`, and the translation fallback `toEnglish` — together
with theorems settling the frozen specification claims.

Conventions of the embedding:
* text is `List Char` (JavaScript strings post-`toLowerCase` are modelled
  by an explicit ASCII `toLower` map, matching `String.prototype.toLowerCase`
  on the ASCII keyword material the pipeline works with);
* JavaScript numbers are `ℚ` (all constants in the source are small exact
  decimals; no rounding occurs in the formulas involved);
* the word-boundary regular expression `\b k \b` is modelled by the exact
  ECMAScript `\b` semantics: a boundary holds at a position iff exactly one
  of the adjacent characters is a word character (`[A-Za-z0-9_]`), with
  out-of-range positions counting as non-word;
* `Array.prototype.sort` with comparator `(a, b) => b.s - a.s` is a stable
  sort placing larger `s` first; it is modelled by `List.insertionSort`
  with the relation `fun a b => b.s ≤ a.s` (stable, sorted, permutation);
* external collaborators (translation, catalog, advertiser lookup, the
  wall clock `performance.now`, `Math.random`) are explicit parameters;
* fallible collaborators return `Except`/`Option`.
-/

/-- Text, as a list of characters. -/
abbrev Str := List Char

/-- ASCII lower-casing, as applied by `toLowerCase` on the ASCII range. -/
def toLower (s : Str) : Str := s.map Char.toLower

/-- ECMAScript word character `[A-Za-z0-9_]` (the `\w` class used by `\b`). -/
def isWordChar (c : Char) : Bool := c.isAlphanum || c == '_'

/-- The keyword occurs in `txt` starting exactly at index `i`. -/
def substrAt (kw txt : Str) (i : Nat) : Bool := decide ((txt.drop i).take kw.length = kw)

/-- `txt.includes(kw)`: the keyword occurs somewhere in `txt`. -/
def containsSubstr (txt kw : Str) : Bool :=
  (List.range (txt.length + 1)).any (fun i => substrAt kw txt i)

/-- Whether the character at index `i` of `txt` is a word character
(out-of-range indices count as non-word, as in ECMAScript `\b`). -/
def isWordAt (txt : Str) (i : Nat) : Bool :=
  match txt.get? i with
  | some c => isWordChar c
  | none => false

/-- ECMAScript `\b` at position `p` of `txt`: exactly one of the character
before `p` and the character at `p` is a word character. -/
def boundaryAt (txt : Str) (p : Nat) : Bool :=
  (if p = 0 then false else isWordAt txt (p - 1)) != isWordAt txt p

/-- The regex `\b kw \b` matches somewhere in `txt` (keyword literal,
as all single-word keywords of the pipeline are regex-literal text). -/
def matchesSingleWord (txt kw : Str) : Bool :=
  (List.range (txt.length + 1)).any
    (fun i => boundaryAt txt i && substrAt kw txt i && boundaryAt txt (i + kw.length))

/-- `matchesKeyword` from `opportunityScorer.ts`: multi-word keywords match
as literal substrings, single-word keywords via the `\b` regex. -/
def matchesKeyword (text keyword : Str) : Bool :=
  if keyword.contains ' ' then containsSubstr text keyword
  else matchesSingleWord text keyword

/-- Split on whitespace runs, dropping empty tokens — the composition
`split(/\s+/).filter(w => w.length > 0)` from the scorer. -/
def splitWsAux : Str → Str → List Str
  | [], acc => if acc.isEmpty then [] else [acc.reverse]
  | c :: rest, acc =>
    if c.isWhitespace then
      if acc.isEmpty then splitWsAux rest [] else acc.reverse :: splitWsAux rest []
    else splitWsAux rest (c :: acc)

/-- The non-empty whitespace-delimited tokens of `txt`. -/
def wordsOf (txt : Str) : List Str := splitWsAux txt []

/- Constants from `v2/constants.ts`. -/

/-- Minimum opportunity score to show ads. -/
def T_LOW : ℚ := 3/10

/-- Threshold for full format availability. -/
def T_HIGH : ℚ := 7/10

/-- Exploration rate for epsilon-greedy selection. -/
def EPSILON : ℚ := 1/20

/-- Default base CTR for new ads without history. -/
def DEFAULT_BASE_CTR : ℚ := 2/100

/-- Penalty multiplier for showing same ad repeatedly. -/
def FATIGUE_SAME_AD_PENALTY : ℚ := 1/2

/-- Penalty multiplier for showing same advertiser repeatedly. -/
def FATIGUE_SAME_ADVERTISER_PENALTY : ℚ := 3/10

/-- The keyword `"what's up"` (apostrophe spelled via its code point). -/
def whatsUpKw : Str := "what".toList ++ [Char.ofNat 39] ++ "s up".toList

/-- Keywords indicating high commercial intent. -/
def HIGH_INTENT_KEYWORDS : List Str :=
  ["purchase".toList, "buy".toList, "order".toList, "subscribe".toList,
   "pricing".toList, "cost".toList, "discount".toList, "compare".toList,
   "vs".toList, "alternative".toList, "recommend".toList, "suggest".toList,
   "best".toList, "review".toList, "deal".toList, "offer".toList,
   "sale".toList, "coupon".toList, "free trial".toList, "sign up".toList,
   "get started".toList]

/-- Keywords indicating low intent (chitchat). -/
def LOW_INTENT_KEYWORDS : List Str :=
  ["hello".toList, "hi".toList, "hey".toList, "thanks".toList,
   "thank you".toList, "bye".toList, "goodbye".toList,
   "good morning".toList, "good night".toList, "how are you".toList,
   whatsUpKw]

/-- Keywords indicating sensitive context (no ads). -/
def SENSITIVE_KEYWORDS : List Str :=
  ["sad".toList, "depressed".toList, "anxious".toList, "anxiety".toList,
   "suicide".toList, "self-harm".toList, "medication".toList,
   "mental health".toList, "therapy".toList, "counseling".toList,
   "legal".toList, "lawsuit".toList, "attorney".toList, "emergency".toList,
   "crisis".toList, "abuse".toList, "violence".toList, "death".toList,
   "grief".toList]

/-- User intent classification for ad serving decisions. -/
inductive IntentCategory where
  | highCommercial
  | mediumCommercial
  | lowIntent
  | sensitive
  | chitchat
deriving DecidableEq, Repr

/-- Result of `scoreOpportunity`: a score in [0,1] and an intent class. -/
structure OppResult where
  score : ℚ
  intent : IntentCategory
deriving DecidableEq, Repr

/-- `scoreOpportunity` from `opportunityScorer.ts`. The keyword loops with
early `return` are the corresponding `List.any` tests, in source order. -/
def scoreOpportunity (contextText : Str) (_language : Str) : OppResult :=
  let lowerText := toLower contextText
  let words := wordsOf lowerText
  if SENSITIVE_KEYWORDS.any (fun k => matchesKeyword lowerText k) then
    ⟨0, .sensitive⟩
  else if LOW_INTENT_KEYWORDS.any (fun k => matchesKeyword lowerText k) then
    ⟨1/10, .chitchat⟩
  else if HIGH_INTENT_KEYWORDS.any (fun k => matchesKeyword lowerText k) then
    ⟨8/10, .highCommercial⟩
  else if words.length < 3 then
    ⟨2/10, .lowIntent⟩
  else
    ⟨5/10, .mediumCommercial⟩

example : scoreOpportunity "I want to buy a laptop".toList "eng".toList
    = ⟨8/10, .highCommercial⟩ := by with_unfolding_all decide

example : scoreOpportunity "How do machine learning algorithms work?".toList "eng".toList
    = ⟨5/10, .mediumCommercial⟩ := by with_unfolding_all decide

example : scoreOpportunity "ok".toList "eng".toList = ⟨2/10, .lowIntent⟩ := by with_unfolding_all decide

example : scoreOpportunity "Hello, how are you?".toList "eng".toList
    = ⟨1/10, .chitchat⟩ := by with_unfolding_all decide

/-! ## Data model: ads (Firestore schema in `src/types`) -/

/-- Multi-language text: optional English and Japanese variants. -/
structure LocalizedText where
  eng : Option Str
  jpn : Option Str
deriving DecidableEq, Repr

/-- Configuration for the `lead_gen` ad format. -/
structure LeadGenConfig where
  placeholder : LocalizedText
  submitButtonText : LocalizedText
  autocompleteType : Str
  successMessage : LocalizedText
deriving DecidableEq, Repr

/-- Configuration for the `followup` ad format. -/
structure FollowupConfig where
  questionText : LocalizedText
  tapAction : Str
  tapActionUrl : Option Str
deriving DecidableEq, Repr

/-- An ad document. `id` is the document identifier when the storage layer
attaches one (the ranker and orchestrator read it as an optional field);
`staticConfig` is copied through opaquely by the pipeline. -/
structure Ad where
  id : Option Str
  advertiserId : Str
  format : Str
  title : LocalizedText
  description : LocalizedText
  ctaText : LocalizedText
  ctaUrl : Str
  tags : List Str
  status : Str
  leadGenConfig : Option LeadGenConfig
  staticConfig : Option Str
  followupConfig : Option FollowupConfig
  cpc : Option ℚ
  baseCTR : Option ℚ
deriving DecidableEq, Repr

/-- Source of a candidate match. -/
inductive MatchSource where
  | tag
  | text
  | semantic
deriving DecidableEq, Repr

/-- Ad candidate with matching score. -/
structure ScoredCandidate where
  ad : Ad
  score : ℚ
  matchSource : MatchSource
deriving DecidableEq, Repr

/-! ## Candidate generator (`v2/candidateGenerator.ts`) -/

/-- Weight of one text (title/description) keyword occurrence. -/
def TEXT_MATCH_MULTIPLIER : ℚ := 1/2

/-- `tokenize`: lower-case, split on whitespace, keep tokens longer than 2. -/
def tokenize (text : Str) : List Str :=
  (wordsOf (toLower text)).filter (fun w => 2 < w.length)

/-- `scoreTagMatch`: the number of keywords present (by exact equality)
among the ad's lower-cased tags. -/
def scoreTagMatch (ad : Ad) (keywords : List Str) : ℚ :=
  let tags := ad.tags.map toLower
  (keywords.countP (fun k => tags.contains k) : ℚ)

/-- `scoreTextMatch`: the number of keywords occurring as substrings of
`"<english title> <english description>"`, weighted by 0.5 each. -/
def scoreTextMatch (ad : Ad) (keywords : List Str) : ℚ :=
  let titleEng := toLower (ad.title.eng.getD [])
  let descEng := toLower (ad.description.eng.getD [])
  let searchText := titleEng ++ [' '] ++ descEng
  (keywords.countP (fun k => containsSubstr searchText k) : ℚ) * TEXT_MATCH_MULTIPLIER

/-- The format allow-list filter: applied only when a list is given and
non-empty (`if (formats && formats.length > 0)`). -/
def filterByFormats (formats : Option (List Str)) (ads : List Ad) : List Ad :=
  match formats with
  | some fs => if 0 < fs.length then ads.filter (fun ad => fs.contains ad.format) else ads
  | none => ads

/-- The per-ad branch of the candidate loop: tag matches first, text
matches only when the tag score is not positive. -/
def candidateOf (keywords : List Str) (ad : Ad) : Option ScoredCandidate :=
  let tagScore := scoreTagMatch ad keywords
  let textScore := scoreTextMatch ad keywords
  if 0 < tagScore then some ⟨ad, tagScore, .tag⟩
  else if 0 < textScore then some ⟨ad, textScore, .text⟩
  else none

/-- Descending-score order used by the final `candidates.sort`. -/
def candLE (a b : ScoredCandidate) : Prop := b.score ≤ a.score

instance : DecidableRel candLE := fun a b => inferInstanceAs (Decidable (b.score ≤ a.score))

/-- The candidate list before the final sort (translation, tokenization,
both early returns, the format filter and the scoring loop). -/
def preCandidates (translate : Str → Str → Str) (activeAds : List Ad)
    (contextText language : Str) (formats : Option (List Str)) : List ScoredCandidate :=
  let englishText := translate contextText language
  let keywords := tokenize englishText
  if keywords.isEmpty then []
  else
    let ads := filterByFormats formats activeAds
    if ads.isEmpty then []
    else ads.filterMap (candidateOf keywords)

/-- `generateCandidates`, with the translation collaborator and the active
catalog snapshot as explicit parameters. The stable `candidates.sort(
(a, b) => b.score - a.score)` is `insertionSort` by descending score. -/
def generateCandidates (translate : Str → Str → Str) (activeAds : List Ad)
    (contextText language : Str) (formats : Option (List Str)) : List ScoredCandidate :=
  (preCandidates translate activeAds contextText language formats).insertionSort candLE

/-! ## Ranker (`v2/ranker.ts`) -/

/-- Final ranking result with expected value breakdown. -/
structure RankingResult where
  ad : Ad
  expectedValue : ℚ
  pCTR : ℚ
  fatiguePenalty : ℚ
  formatPenalty : ℚ
deriving DecidableEq, Repr

/-- The body of the `candidates.map` in `rankCandidates`: CPC and base CTR
with fallbacks, fatigue as the larger of the two penalties, expected value
`pCTR × cpc × (1 − fatiguePenalty)`. -/
def rankOne (recentAdIds recentAdvertiserIds : List Str)
    (candidate : ScoredCandidate) : RankingResult :=
  let ad := candidate.ad
  let cpc := ad.cpc.getD 1
  let pCTR := ad.baseCTR.getD DEFAULT_BASE_CTR
  let adId := ad.id.getD []
  let sameAdPenalty := if recentAdIds.contains adId then FATIGUE_SAME_AD_PENALTY else 0
  let sameAdvertiserPenalty :=
    if recentAdvertiserIds.contains ad.advertiserId then FATIGUE_SAME_ADVERTISER_PENALTY else 0
  let fatiguePenalty := max sameAdPenalty sameAdvertiserPenalty
  let expectedValue := pCTR * cpc * (1 - fatiguePenalty)
  ⟨ad, expectedValue, pCTR, fatiguePenalty, 0⟩

/-- Descending-expected-value order used by the final `results.sort`. -/
def rankLE (a b : RankingResult) : Prop := b.expectedValue ≤ a.expectedValue

instance : DecidableRel rankLE := fun a b =>
  inferInstanceAs (Decidable (b.expectedValue ≤ a.expectedValue))

/-- `rankCandidates`: map each candidate through the ranking formula, then
the stable sort by expected value descending. -/
def rankCandidates (candidates : List ScoredCandidate)
    (recentAdIds recentAdvertiserIds : List Str) : List RankingResult :=
  (candidates.map (rankOne recentAdIds recentAdvertiserIds)).insertionSort rankLE

/-! ## Explorer (`v2/explorer.ts`) -/

/-- `selectWithExploration`. The two `Math.random()` draws are the explicit
parameters `r1` (explore/exploit coin) and `r2` (index draw); both lie in
`[0, 1)` at the call sites. An out-of-range index read (impossible for
in-range draws) is `none`, like the `undefined` it would produce. -/
def selectWithExploration {α : Type} (rankedCandidates : List α)
    (epsilon r1 r2 : ℚ) : Option α :=
  match rankedCandidates with
  | [] => none
  | a :: _ =>
    if r1 < epsilon then
      let top5 := rankedCandidates.take 5
      let randomIndex := (⌊r2 * (top5.length : ℚ)⌋).toNat
      top5.get? randomIndex
    else
      some a

/-! ## Feature flags (`featureFlags.ts`) -/

/-- The environment variables read by the strategy gate; `none` models an
unset variable. -/
structure V2Env where
  v2Enabled : Option Str
  v2AppIds : Option Str
  v2Percentage : Option Str
  v2TimeoutMs : Option Str
deriving DecidableEq, Repr

/-- JavaScript string truthiness for an optional env var: set and
non-empty. -/
def truthy : Option Str → Bool
  | some s => !s.isEmpty
  | none => false

/-- `hashAppId`: fold `hash * 31 + code` over the characters with `>>> 0`
(reduction mod 2³²), then reduce into the 0–99 bucket. -/
def hashAppId (appId : Str) : Nat :=
  (appId.foldl (fun h c => (h * 31 + c.toNat) % 2 ^ 32) 0) % 100

/-- The digits prefix of `s` interpreted in base 10, `none` when `s` does
not start with a digit. -/
def parseDigits (s : Str) : Option Nat :=
  let ds := s.takeWhile Char.isDigit
  if ds.isEmpty then none
  else some (ds.foldl (fun n c => n * 10 + (c.toNat - 48)) 0)

/-- `parseInt(s, 10)`: skip leading whitespace, optional sign, then the
longest digit prefix; `none` models `NaN`. -/
def parseInt10 (s : Str) : Option Int :=
  let t := s.dropWhile Char.isWhitespace
  match t with
  | '-' :: rest => (parseDigits rest).map (fun n => -(n : Int))
  | '+' :: rest => (parseDigits rest).map (fun n => (n : Int))
  | _ => (parseDigits t).map (fun n => (n : Int))

/-- Split on commas, keeping empty fields, as `String.prototype.split(",")`. -/
def splitCommaAux : Str → Str → List Str
  | [], acc => [acc.reverse]
  | c :: rest, acc =>
    if c == ',' then acc.reverse :: splitCommaAux rest []
    else splitCommaAux rest (c :: acc)

/-- `s.split(",")`. -/
def splitComma (s : Str) : List Str := splitCommaAux s []

/-- `String.prototype.trim`. -/
def trimStr (s : Str) : Str :=
  ((s.dropWhile Char.isWhitespace).reverse.dropWhile Char.isWhitespace).reverse

/-- The allow-list parsed from `V2_APP_IDS`: comma-separated and trimmed. -/
def whitelistOf (s : Str) : List Str := (splitComma s).map trimStr

/-- The whitelist check of `isV2Enabled`: `V2_APP_IDS` truthy and the
caller id among its trimmed comma-separated entries. -/
def onAllowList (env : V2Env) (appId : Str) : Bool :=
  match env.v2AppIds with
  | some s => if s.isEmpty then false else (whitelistOf s).contains appId
  | none => false

/-- The percentage-rollout configuration of `isV2Enabled`: `V2_PERCENTAGE`
truthy, parsing to a number, and within 0–100; `none` on every other
path (unset, empty, `NaN`, out of range), which falls to the default. -/
def validPercentage (env : V2Env) : Option Int :=
  match env.v2Percentage with
  | some s =>
    if s.isEmpty then none
    else
      match parseInt10 s with
      | some p => if 0 ≤ p ∧ p ≤ 100 then some p else none
      | none => none
  | none => none

/-- `isV2Enabled`: kill switch, then allow-list, then percentage rollout,
then the global default `globalEnabled === "true"`. -/
def isV2Enabled (env : V2Env) (appId : Str) : Bool :=
  if env.v2Enabled == some ("false".toList) then false
  else if onAllowList env appId then true
  else
    match validPercentage env with
    | some p => decide ((hashAppId appId : Int) < p)
    | none => env.v2Enabled == some ("true".toList)

/-! ## Translation fallback (`deciders/toEnglish.ts`) -/

/-- `LANGUAGE_MAP`: internal language codes to Google Translate codes. -/
def LANGUAGE_MAP (code : Str) : Option Str :=
  if code = "eng".toList then some ("en".toList)
  else if code = "jpn".toList then some ("ja".toList)
  else none

/-- The Google Translate source-language code for an internal code
(`LANGUAGE_MAP[sourceLanguage] ?? "auto"`). -/
def mapLang (sourceLanguage : Str) : Str := (LANGUAGE_MAP sourceLanguage).getD ("auto".toList)

/-- `toEnglish`. `attempt text lang` models the whole `try` block — client
construction plus the API call — returning `Except.error` for any thrown
error and `Except.ok` with the optional `translations?.[0]?.translatedText`
on success. -/
def toEnglish (attempt : Str → Str → Except Str (Option Str))
    (text sourceLanguage : Str) : Str :=
  if sourceLanguage = "eng".toList then text
  else
    match attempt text (mapLang sourceLanguage) with
    | .error _ => text
    | .ok translated => translated.getD text

/-! ## Decision orchestrator (`v2/decideAdV2.ts`) -/

/-- Timing information for each phase, in milliseconds. -/
structure PhaseTimings where
  opportunityMs : ℚ
  candidateMs : ℚ
  rankingMs : ℚ
  totalMs : ℚ
deriving DecidableEq, Repr

/-- Score breakdown for debugging and analytics. -/
structure ScoreBreakdown where
  baseScore : ℚ
  relevanceBoost : ℚ
  fatiguePenalty : ℚ
  formatPenalty : ℚ
  explorationBonus : ℚ
deriving DecidableEq, Repr

/-- Metadata for the v2 decision process. -/
structure V2DecisionMeta where
  oppScore : ℚ
  oppIntent : IntentCategory
  candidateCount : Nat
  finalScore : ℚ
  scoreBreakdown : ScoreBreakdown
  fallbackUsed : Bool
  phaseTimings : PhaseTimings
deriving DecidableEq, Repr

/-- Resolved `lead_gen` configuration, all text in one language. -/
structure ResolvedLeadGenConfig where
  placeholder : Str
  submitButtonText : Str
  autocompleteType : Str
  successMessage : Str
deriving DecidableEq, Repr

/-- Resolved `followup` configuration, all text in one language. -/
structure ResolvedFollowupConfig where
  questionText : Str
  tapAction : Str
  tapActionUrl : Option Str
deriving DecidableEq, Repr

/-- Client-ready ad payload with all text resolved to a single language. -/
structure ResolvedAd where
  id : Str
  advertiserId : Str
  advertiserName : Str
  format : Str
  title : Str
  description : Str
  ctaText : Str
  ctaUrl : Str
  leadGenConfig : Option ResolvedLeadGenConfig
  staticConfig : Option Str
  followupConfig : Option ResolvedFollowupConfig
deriving DecidableEq, Repr

/-- An advertiser record, as read by the orchestrator. -/
structure Advertiser where
  name : Str
deriving DecidableEq, Repr

/-- `resolveLocalizedText`: the Japanese variant when requested and truthy
(present and non-empty), otherwise `eng ?? ""`. -/
def resolveLocalizedText (text : LocalizedText) (language : Str) : Str :=
  if language = "jpn".toList then
    match text.jpn with
    | some j => if j.isEmpty then text.eng.getD [] else j
    | none => text.eng.getD []
  else text.eng.getD []

/-- `createEmptyMeta`: the no-item metadata record. -/
def createEmptyMeta (oppScore : ℚ) (oppIntent : IntentCategory)
    (phaseTimings : PhaseTimings) : V2DecisionMeta :=
  { oppScore := oppScore
    oppIntent := oppIntent
    candidateCount := 0
    finalScore := 0
    scoreBreakdown := ⟨0, 0, 0, 0, 0⟩
    fallbackUsed := false
    phaseTimings := phaseTimings }

/-- `toResolvedAd`, with the advertiser lookup collaborator explicit. -/
def toResolvedAd (getAdvertiser : Str → Option Advertiser) (ad : Ad)
    (adId : Str) (language : Str) : ResolvedAd :=
  let advertiserName := ((getAdvertiser ad.advertiserId).map Advertiser.name).getD ("Unknown".toList)
  { id := adId
    advertiserId := ad.advertiserId
    advertiserName := advertiserName
    format := ad.format
    title := resolveLocalizedText ad.title language
    description := resolveLocalizedText ad.description language
    ctaText := resolveLocalizedText ad.ctaText language
    ctaUrl := ad.ctaUrl
    leadGenConfig := ad.leadGenConfig.map (fun c =>
      ⟨resolveLocalizedText c.placeholder language,
       resolveLocalizedText c.submitButtonText language,
       c.autocompleteType,
       resolveLocalizedText c.successMessage language⟩)
    staticConfig := ad.staticConfig
    followupConfig := ad.followupConfig.map (fun c =>
      ⟨resolveLocalizedText c.questionText language, c.tapAction, c.tapActionUrl⟩) }

/-- The collaborators and ambient effects of one `decideAdV2` call:
translation, the active catalog snapshot, advertiser lookup, the
`performance.now()` stream (`clk n` is the value returned by the
`n`-th call, in call order), and the two `Math.random()` draws made by
`selectWithExploration`. -/
structure V2Deps where
  translate : Str → Str → Str
  activeAds : List Ad
  getAdvertiser : Str → Option Advertiser
  clk : Nat → ℚ
  r1 : ℚ
  r2 : ℚ

/-- `decideAdV2`: opportunity scoring with its early exit, candidate
generation with its early exit, ranking, epsilon-greedy selection, and
resolution, with fresh metadata on every path. `performance.now()` calls
are numbered in call order on each path. -/
def decideAdV2 (deps : V2Deps) (contextText language : Str)
    (recentAdIds recentAdvertiserIds : List Str) :
    Option ResolvedAd × V2DecisionMeta :=
  let startTime := deps.clk 0
  let oppStart := deps.clk 1
  let opp := scoreOpportunity contextText language
  let oppEnd := deps.clk 2
  if opp.score < T_LOW then
    (none, createEmptyMeta opp.score opp.intent
      ⟨oppEnd - oppStart, 0, 0, deps.clk 3 - startTime⟩)
  else
    let candStart := deps.clk 3
    let candidates := generateCandidates deps.translate deps.activeAds contextText language none
    let candEnd := deps.clk 4
    if candidates.isEmpty then
      (none, createEmptyMeta opp.score opp.intent
        ⟨oppEnd - oppStart, candEnd - candStart, 0, deps.clk 5 - startTime⟩)
    else
      let rankStart := deps.clk 5
      let rankedCandidates := rankCandidates candidates recentAdIds recentAdvertiserIds
      let rankEnd := deps.clk 6
      match selectWithExploration rankedCandidates EPSILON deps.r1 deps.r2 with
      | none =>
        (none, createEmptyMeta opp.score opp.intent
          ⟨oppEnd - oppStart, candEnd - candStart, rankEnd - rankStart, deps.clk 7 - startTime⟩)
      | some selected =>
        let adId := selected.ad.id.getD []
        let resolvedAd := toResolvedAd deps.getAdvertiser selected.ad adId language
        let phaseTimings : PhaseTimings :=
          ⟨oppEnd - oppStart, candEnd - candStart, rankEnd - rankStart, deps.clk 7 - startTime⟩
        let scoreBreakdown : ScoreBreakdown :=
          ⟨selected.pCTR, 0, selected.fatiguePenalty, selected.formatPenalty, 0⟩
        (some resolvedAd,
         { oppScore := opp.score
           oppIntent := opp.intent
           candidateCount := candidates.length
           finalScore := selected.expectedValue
           scoreBreakdown := scoreBreakdown
           fallbackUsed := false
           phaseTimings := phaseTimings })

/-! ## Claim theorems -/

/-- C1: `scoreOpportunity` returns the first matching category in strict
priority order sensitive > chitchat > high-intent > short-text > default,
with the fixed pairs `{0, sensitive}`, `{0.1, chitchat}`,
`{0.8, high_commercial}`, `{0.2, low_intent}` (fewer than 3 whitespace
tokens) and `{0.5, medium_commercial}` otherwise, even when keywords of
several categories co-occur. -/
theorem scoreOpportunity_strict_priority (text lang : Str) :
    (SENSITIVE_KEYWORDS.any (fun k => matchesKeyword (toLower text) k) = true →
      scoreOpportunity text lang = ⟨0, .sensitive⟩)
    ∧ (SENSITIVE_KEYWORDS.any (fun k => matchesKeyword (toLower text) k) = false →
       LOW_INTENT_KEYWORDS.any (fun k => matchesKeyword (toLower text) k) = true →
      scoreOpportunity text lang = ⟨1/10, .chitchat⟩)
    ∧ (SENSITIVE_KEYWORDS.any (fun k => matchesKeyword (toLower text) k) = false →
       LOW_INTENT_KEYWORDS.any (fun k => matchesKeyword (toLower text) k) = false →
       HIGH_INTENT_KEYWORDS.any (fun k => matchesKeyword (toLower text) k) = true →
      scoreOpportunity text lang = ⟨8/10, .highCommercial⟩)
    ∧ (SENSITIVE_KEYWORDS.any (fun k => matchesKeyword (toLower text) k) = false →
       LOW_INTENT_KEYWORDS.any (fun k => matchesKeyword (toLower text) k) = false →
       HIGH_INTENT_KEYWORDS.any (fun k => matchesKeyword (toLower text) k) = false →
       (wordsOf (toLower text)).length < 3 →
      scoreOpportunity text lang = ⟨2/10, .lowIntent⟩)
    ∧ (SENSITIVE_KEYWORDS.any (fun k => matchesKeyword (toLower text) k) = false →
       LOW_INTENT_KEYWORDS.any (fun k => matchesKeyword (toLower text) k) = false →
       HIGH_INTENT_KEYWORDS.any (fun k => matchesKeyword (toLower text) k) = false →
       ¬ (wordsOf (toLower text)).length < 3 →
      scoreOpportunity text lang = ⟨5/10, .mediumCommercial⟩) := by
  unfold scoreOpportunity
  refine ⟨fun h1 => by simp [h1], fun h1 h2 => by simp [h1, h2],
    fun h1 h2 h3 => by simp [h1, h2, h3],
    fun h1 h2 h3 h4 => by simp [h1, h2, h3, h4],
    fun h1 h2 h3 h4 => by simp [h1, h2, h3, h4]⟩

/-- Witness for C1: `"buy it"` carries a high-intent keyword and only two
tokens; the high-intent branch wins over the short-text branch. -/
theorem scoreOpportunity_strict_priority_witness :
    scoreOpportunity ("buy it".toList) ("eng".toList) = ⟨8/10, .highCommercial⟩ :=
  (scoreOpportunity_strict_priority ("buy it".toList) ("eng".toList)).2.2.1
    (by decide) (by decide) (by decide)

/-! ### Word-boundary matching (C2 support) -/

/-- All keywords of the three scorer lists. -/
def allKeywords : List Str :=
  SENSITIVE_KEYWORDS ++ LOW_INTENT_KEYWORDS ++ HIGH_INTENT_KEYWORDS

/-- A keyword that starts and ends with a word character (true of every
single-word keyword in the lists, checked by computation below). -/
def wordEdged (k : Str) : Bool :=
  match k.head?, k.getLast? with
  | some a, some b => isWordChar a && isWordChar b
  | _, _ => false

theorem wordEdged_ne_nil {k : Str} (h : wordEdged k = true) : k ≠ [] := by
  intro hnil
  subst hnil
  simp [wordEdged] at h

theorem wordEdged_spec {k : Str} (h : wordEdged k = true) :
    ∃ a b, k.head? = some a ∧ k.getLast? = some b ∧
      isWordChar a = true ∧ isWordChar b = true := by
  unfold wordEdged at h
  split at h
  next a b ha hb =>
    exact ⟨a, b, ha, hb, by simpa using (Bool.and_eq_true _ _).mp h |>.1,
      by simpa using (Bool.and_eq_true _ _).mp h |>.2⟩
  next => simp at h

theorem substrAt_getElem {k txt : Str} {i j : Nat} (h : substrAt k txt i = true)
    (hj : j < k.length) : txt[i + j]? = k[j]? := by
  have he : (txt.drop i).take k.length = k := by simpa [substrAt] using h
  calc txt[i + j]? = (txt.drop i)[j]? := (List.getElem?_drop txt i j).symm
    _ = ((txt.drop i).take k.length)[j]? := (List.getElem?_take_of_lt hj).symm
    _ = k[j]? := by rw [he]

theorem substrAt_le_length {k txt : Str} {i : Nat} (hne : k ≠ [])
    (h : substrAt k txt i = true) : i + k.length ≤ txt.length := by
  have he : (txt.drop i).take k.length = k := by simpa [substrAt] using h
  have hlen := congrArg List.length he
  simp [List.length_take, List.length_drop] at hlen
  have hpos : 0 < k.length := List.length_pos.mpr hne
  omega

theorem isWordAt_start {k txt : Str} {i : Nat} (hk : wordEdged k = true)
    (hsub : substrAt k txt i = true) : isWordAt txt i = true := by
  obtain ⟨a, b, ha, _, hwa, _⟩ := wordEdged_spec hk
  have h0 : (0 : Nat) < k.length := List.length_pos.mpr (wordEdged_ne_nil hk)
  have h1 : txt[i + 0]? = k[0]? := substrAt_getElem hsub h0
  rw [Nat.add_zero] at h1
  rw [← List.head?_eq_getElem?, ha] at h1
  simp [isWordAt, h1, hwa]

theorem isWordAt_last {k txt : Str} {i : Nat} (hk : wordEdged k = true)
    (hsub : substrAt k txt i = true) : isWordAt txt (i + k.length - 1) = true := by
  obtain ⟨a, b, _, hb, _, hwb⟩ := wordEdged_spec hk
  have h0 : (0 : Nat) < k.length := List.length_pos.mpr (wordEdged_ne_nil hk)
  have hj : k.length - 1 < k.length := by omega
  have h1 : txt[i + (k.length - 1)]? = k[k.length - 1]? := substrAt_getElem hsub hj
  have h2 : i + k.length - 1 = i + (k.length - 1) := by omega
  rw [← List.getLast?_eq_getElem?, hb] at h1
  rw [h2]
  simp [isWordAt, h1, hwb]

theorem matchesSingleWord_of_occurrence {k txt : Str} {i : Nat}
    (hk : wordEdged k = true) (hsub : substrAt k txt i = true)
    (hl : i = 0 ∨ isWordAt txt (i - 1) = false)
    (hr : isWordAt txt (i + k.length) = false) :
    matchesSingleWord txt k = true := by
  have hne : k ≠ [] := wordEdged_ne_nil hk
  have hpos : 0 < k.length := List.length_pos.mpr hne
  have hle : i + k.length ≤ txt.length := substrAt_le_length hne hsub
  have hstart : isWordAt txt i = true := isWordAt_start hk hsub
  have hlast : isWordAt txt (i + k.length - 1) = true := isWordAt_last hk hsub
  have hb1 : boundaryAt txt i = true := by
    unfold boundaryAt
    rcases hl with rfl | hl
    · simp [hstart]
    · by_cases h0 : i = 0
      · subst h0
        simp [hstart]
      · simp [h0, hl, hstart]
  have hb2 : boundaryAt txt (i + k.length) = true := by
    unfold boundaryAt
    have h0 : ¬ (i + k.length = 0) := by omega
    simp [h0, hlast, hr]
  unfold matchesSingleWord
  rw [List.any_eq_true]
  refine ⟨i, List.mem_range.mpr (by omega), ?_⟩
  simp [hb1, hsub, hb2]

theorem matchesSingleWord_eq_false {k txt : Str}
    (hk : wordEdged k = true)
    (h : ∀ i, i < txt.length + 1 → substrAt k txt i = true →
        (0 < i ∧ isWordAt txt (i - 1) = true) ∨ isWordAt txt (i + k.length) = true) :
    matchesSingleWord txt k = false := by
  have hne : k ≠ [] := wordEdged_ne_nil hk
  have hpos : 0 < k.length := List.length_pos.mpr hne
  unfold matchesSingleWord
  rw [List.any_eq_false]
  intro i hi
  rw [List.mem_range] at hi
  by_cases hsub : substrAt k txt i = true
  · have hstart : isWordAt txt i = true := isWordAt_start hk hsub
    have hlast : isWordAt txt (i + k.length - 1) = true := isWordAt_last hk hsub
    rcases h i hi hsub with ⟨hipos, hw⟩ | hw
    · have hb : boundaryAt txt i = false := by
        unfold boundaryAt
        have h0 : ¬ (i = 0) := by omega
        simp [h0, hw, hstart]
      simp [hb]
    · have hb : boundaryAt txt (i + k.length) = false := by
        unfold boundaryAt
        have h0 : ¬ (i + k.length = 0) := by omega
        simp [h0, hlast, hw]
      simp [hb]
  · rw [Bool.not_eq_true] at hsub
    simp [hsub]

theorem matchesKeyword_single {k : Str} (h : k.contains ' ' = false) (txt : Str) :
    matchesKeyword txt k = matchesSingleWord txt k := by
  unfold matchesKeyword
  rw [h]
  simp

theorem matchesKeyword_multi {k : Str} (h : k.contains ' ' = true) (txt : Str) :
    matchesKeyword txt k = containsSubstr txt k := by
  unfold matchesKeyword
  rw [h]
  simp

theorem allKeywords_single_wordEdged :
    ∀ k ∈ allKeywords, k.contains ' ' = false → wordEdged k = true := by decide

/-- C2: for every single-word keyword `k` of the sensitive, chitchat and
high-intent lists, a message containing `k` at some position with non-word
surroundings (start of text or a non-word character on the left, end of
text or a non-word character on the right — out-of-range positions count
as non-word) triggers `k`'s matcher, while a message in which every
occurrence of `k` has an adjacent word character (i.e. `k` occurs only as
a strict substring of a longer word) does not; multi-word keywords match
exactly as literal substrings. -/
theorem keyword_boundary_matching :
    ∀ k ∈ allKeywords,
      (k.contains ' ' = false →
        (∀ txt i, substrAt k txt i = true →
            (i = 0 ∨ isWordAt txt (i - 1) = false) →
            isWordAt txt (i + k.length) = false →
            matchesKeyword txt k = true)
        ∧ (∀ txt, (∀ i, i < txt.length + 1 → substrAt k txt i = true →
              (0 < i ∧ isWordAt txt (i - 1) = true) ∨ isWordAt txt (i + k.length) = true) →
            matchesKeyword txt k = false))
      ∧ (k.contains ' ' = true → ∀ txt, matchesKeyword txt k = containsSubstr txt k) := by
  intro k hk
  refine ⟨fun hs => ?_, fun hm txt => matchesKeyword_multi hm txt⟩
  have hedge := allKeywords_single_wordEdged k hk hs
  exact ⟨fun txt i hsub hl hr => (matchesKeyword_single hs txt).trans
      (matchesSingleWord_of_occurrence hedge hsub hl hr),
    fun txt h => (matchesKeyword_single hs txt).trans
      (matchesSingleWord_eq_false hedge h)⟩

/-- Witness for C2: the chitchat keyword `"hi"` matches `"oh hi there"`
(whole word) but not `"this"` (strict substring), and the multi-word
keyword `"thank you"` matches by substring containment. -/
theorem keyword_boundary_matching_witness :
    matchesKeyword ("oh hi there".toList) ("hi".toList) = true
    ∧ matchesKeyword ("this".toList) ("hi".toList) = false
    ∧ matchesKeyword ("thank you all".toList) ("thank you".toList)
        = containsSubstr ("thank you all".toList) ("thank you".toList) :=
  ⟨((keyword_boundary_matching ("hi".toList) (by decide)).1 (by decide)).1
      ("oh hi there".toList) 3 (by decide) (by decide) (by decide),
   ((keyword_boundary_matching ("hi".toList) (by decide)).1 (by decide)).2
      ("this".toList) (by decide),
   (keyword_boundary_matching ("thank you".toList) (by decide)).2 (by decide)
      ("thank you all".toList)⟩

/-! ### Candidate generation (C4, C7 support) -/

instance : IsTotal ScoredCandidate candLE := ⟨fun a b => le_total b.score a.score⟩

instance : IsTrans ScoredCandidate candLE := ⟨fun _ _ _ h1 h2 => le_trans h2 h1⟩

theorem scoreTagMatch_nonneg (ad : Ad) (kws : List Str) : 0 ≤ scoreTagMatch ad kws := by
  unfold scoreTagMatch
  exact Nat.cast_nonneg _

theorem candidateOf_spec {kws : List Str} {ad : Ad} {c : ScoredCandidate}
    (h : candidateOf kws ad = some c) :
    c.ad = ad ∧
      ((0 < scoreTagMatch ad kws ∧ c.score = scoreTagMatch ad kws ∧ c.matchSource = .tag)
       ∨ (scoreTagMatch ad kws = 0 ∧ 0 < scoreTextMatch ad kws ∧
          c.score = scoreTextMatch ad kws ∧ c.matchSource = .text)) := by
  simp only [candidateOf] at h
  split at h
  · next htag =>
    cases h
    exact ⟨rfl, Or.inl ⟨htag, rfl, rfl⟩⟩
  · next htag =>
    split at h
    · next htext =>
      cases h
      exact ⟨rfl, Or.inr ⟨le_antisymm (not_lt.mp htag) (scoreTagMatch_nonneg ad kws),
        htext, rfl, rfl⟩⟩
    · cases h

theorem candidateOf_isSome {kws : List Str} {ad : Ad}
    (h : 0 < scoreTagMatch ad kws ∨ 0 < scoreTextMatch ad kws) :
    ∃ c, candidateOf kws ad = some c ∧ c.ad = ad := by
  simp only [candidateOf]
  split
  · exact ⟨_, rfl, rfl⟩
  · next htag =>
    rcases h with h | h
    · exact absurd h htag
    · rw [if_pos h]
      exact ⟨_, rfl, rfl⟩

theorem mem_preCandidates {translate : Str → Str → Str} {activeAds : List Ad}
    {contextText language : Str} {formats : Option (List Str)} {c : ScoredCandidate}
    (hc : c ∈ preCandidates translate activeAds contextText language formats) :
    c.ad ∈ filterByFormats formats activeAds ∧
      candidateOf (tokenize (translate contextText language)) c.ad = some c := by
  simp only [preCandidates] at hc
  split at hc
  · exact absurd hc (List.not_mem_nil c)
  · split at hc
    · exact absurd hc (List.not_mem_nil c)
    · obtain ⟨ad, had, heq⟩ := List.mem_filterMap.mp hc
      have had' := (candidateOf_spec heq).1
      subst had'
      exact ⟨had, heq⟩

theorem preCandidates_mem_of {translate : Str → Str → Str} {activeAds : List Ad}
    {contextText language : Str} {formats : Option (List Str)} {ad : Ad}
    (had : ad ∈ filterByFormats formats activeAds)
    (h : 0 < scoreTagMatch ad (tokenize (translate contextText language)) ∨
         0 < scoreTextMatch ad (tokenize (translate contextText language))) :
    ∃ c ∈ preCandidates translate activeAds contextText language formats, c.ad = ad := by
  obtain ⟨c, hc, hcad⟩ := candidateOf_isSome h
  refine ⟨c, ?_, hcad⟩
  simp only [preCandidates]
  have hkw : ¬ (tokenize (translate contextText language)).isEmpty = true := by
    intro he
    rw [List.isEmpty_iff] at he
    rcases h with h | h
    · rw [he] at h
      simp [scoreTagMatch] at h
    · rw [he] at h
      simp [scoreTextMatch] at h
  rw [if_neg hkw]
  have hads : ¬ (filterByFormats formats activeAds).isEmpty = true := by
    intro he
    rw [List.isEmpty_iff] at he
    rw [he] at had
    exact absurd had (List.not_mem_nil ad)
  rw [if_neg hads]
  exact List.mem_filterMap.mpr ⟨ad, had, hc⟩

/-- C4: an ad enters the candidate result iff its tag score is positive
(entering with the tag score and source `tag`) or its tag score is zero
and its text score is positive (entering with the text score and source
`text`); an ad with a positive tag score is never carried under the text
path; and the result is the stable descending sort of the encounter-order
candidate list (sorted by score, permutation of it, tied runs keeping
encounter order). -/
theorem generateCandidates_spec (translate : Str → Str → Str) (activeAds : List Ad)
    (contextText language : Str) (formats : Option (List Str)) :
    (∀ c ∈ generateCandidates translate activeAds contextText language formats,
        c.ad ∈ filterByFormats formats activeAds ∧
        ((0 < scoreTagMatch c.ad (tokenize (translate contextText language)) ∧
          c.score = scoreTagMatch c.ad (tokenize (translate contextText language)) ∧
          c.matchSource = .tag)
         ∨ (scoreTagMatch c.ad (tokenize (translate contextText language)) = 0 ∧
            0 < scoreTextMatch c.ad (tokenize (translate contextText language)) ∧
            c.score = scoreTextMatch c.ad (tokenize (translate contextText language)) ∧
            c.matchSource = .text)))
    ∧ (∀ ad ∈ filterByFormats formats activeAds,
        (0 < scoreTagMatch ad (tokenize (translate contextText language)) ∨
         0 < scoreTextMatch ad (tokenize (translate contextText language))) →
        ∃ c ∈ generateCandidates translate activeAds contextText language formats,
          c.ad = ad)
    ∧ (generateCandidates translate activeAds contextText language formats).Pairwise candLE
    ∧ List.Perm (generateCandidates translate activeAds contextText language formats)
        (preCandidates translate activeAds contextText language formats)
    ∧ (∀ c, List.Sublist c (preCandidates translate activeAds contextText language formats) →
        c.Pairwise (fun a b => a.score = b.score) →
        List.Sublist c (generateCandidates translate activeAds contextText language formats)) := by
  refine ⟨?_, ?_, ?_, ?_, ?_⟩
  · intro c hc
    have hc' : c ∈ preCandidates translate activeAds contextText language formats :=
      (List.perm_insertionSort candLE _).mem_iff.mp hc
    obtain ⟨had, heq⟩ := mem_preCandidates hc'
    exact ⟨had, (candidateOf_spec heq).2⟩
  · intro ad had h
    obtain ⟨c, hc, hcad⟩ := preCandidates_mem_of had h
    exact ⟨c, (List.perm_insertionSort candLE _).mem_iff.mpr hc, hcad⟩
  · exact List.sorted_insertionSort candLE _
  · exact List.perm_insertionSort candLE _
  · intro c hsub hties
    exact List.sublist_insertionSort
      (hties.imp (fun {a b} h => by unfold candLE; rw [h])) hsub

/-- A sample active ad used by concrete witnesses below. -/
def sampleAd : Ad :=
  { id := some ("ad-1".toList)
    advertiserId := "adv-1".toList
    format := "action_card".toList
    title := ⟨some ("Laptop deals".toList), none⟩
    description := ⟨some ("Great discounts on laptops".toList), none⟩
    ctaText := ⟨some ("Shop now".toList), none⟩
    ctaUrl := "https://example.com".toList
    tags := ["laptop".toList]
    status := "active".toList
    leadGenConfig := none
    staticConfig := none
    followupConfig := none
    cpc := none
    baseCTR := none }

/-- Witness for C4: with the identity translator and a one-ad catalog whose
tag matches a token of the message, the ad appears in the result. -/
theorem generateCandidates_spec_witness :
    ∃ c ∈ generateCandidates (fun t _ => t) [sampleAd]
        ("laptop now".toList) ("eng".toList) none, c.ad = sampleAd :=
  (generateCandidates_spec (fun t _ => t) [sampleAd]
      ("laptop now".toList) ("eng".toList) none).2.1 sampleAd
    (by decide) (Or.inl (by with_unfolding_all decide))

/-- C7 counterexample: when the *empty* allow-list is given, the source
skips the filter (`formats && formats.length > 0`), so a candidate whose
format is in no allow-list at all is still returned: the claim fails for
`formats = some []`. -/
theorem generateCandidates_formats_counterexample :
    ¬ (∀ c ∈ generateCandidates (fun t _ => t) [sampleAd]
          ("laptop now".toList) ("eng".toList) (some []),
        c.ad.format ∈ ([] : List Str)) := by
  with_unfolding_all decide

/-- C7 (amended): when a *non-empty* formats allow-list is given, items
whose format is not in it are dropped — every candidate in the result has
a format that is a member of the given list. -/
theorem generateCandidates_formats_allowlist (translate : Str → Str → Str)
    (activeAds : List Ad) (contextText language : Str) (fs : List Str)
    (hfs : fs ≠ []) :
    ∀ c ∈ generateCandidates translate activeAds contextText language (some fs),
      c.ad.format ∈ fs := by
  intro c hc
  have hc' : c ∈ preCandidates translate activeAds contextText language (some fs) :=
    (List.perm_insertionSort candLE _).mem_iff.mp hc
  have had := (mem_preCandidates hc').1
  simp only [filterByFormats] at had
  rw [if_pos (List.length_pos.mpr hfs)] at had
  have := (List.mem_filter.mp had).2
  simpa using this

/-- Witness for C7 (amended): a one-element allow-list containing the
sample ad's format keeps that ad, whose format is then in the list. -/
theorem generateCandidates_formats_allowlist_witness :
    (⟨sampleAd, 1, .tag⟩ : ScoredCandidate).ad.format ∈ [("action_card".toList : Str)] :=
  generateCandidates_formats_allowlist (fun t _ => t) [sampleAd] ("laptop now".toList)
    ("eng".toList) [("action_card".toList : Str)] (by decide) ⟨sampleAd, 1, .tag⟩
    (by with_unfolding_all decide)

/-! ### Ranking (C5, C10 support) -/

instance : IsTotal RankingResult rankLE := ⟨fun a b => le_total b.expectedValue a.expectedValue⟩

instance : IsTrans RankingResult rankLE := ⟨fun _ _ _ h1 h2 => le_trans h2 h1⟩

/-- The fatigue penalty as the specification words it: 0.5 when the item
id is recent, else 0.3 when the advertiser is recent, else 0 — an
if-chain, never a sum. -/
def specFatiguePenalty (recentAdIds recentAdvertiserIds : List Str)
    (c : ScoredCandidate) : ℚ :=
  if recentAdIds.contains (c.ad.id.getD []) then FATIGUE_SAME_AD_PENALTY
  else if recentAdvertiserIds.contains c.ad.advertiserId then FATIGUE_SAME_ADVERTISER_PENALTY
  else 0

/-- C5: each ranking entry uses `pCTR = baseCTR ?? 0.02`, `cpc = cpc ?? 1`,
a fatigue penalty that is 0.5 for a recent item id, else 0.3 for a recent
advertiser, else 0 (the larger penalty, never the sum, when both apply),
and expected value `pCTR × cpc × (1 − fatiguePenalty)`; the output is the
stable descending sort by expected value (sorted, a permutation of the
mapped input, tied runs keeping encounter order). -/
theorem rankCandidates_spec (candidates : List ScoredCandidate)
    (recentAdIds recentAdvertiserIds : List Str) :
    (∀ c : ScoredCandidate,
        rankOne recentAdIds recentAdvertiserIds c =
          { ad := c.ad
            expectedValue := c.ad.baseCTR.getD DEFAULT_BASE_CTR * c.ad.cpc.getD 1 *
              (1 - specFatiguePenalty recentAdIds recentAdvertiserIds c)
            pCTR := c.ad.baseCTR.getD DEFAULT_BASE_CTR
            fatiguePenalty := specFatiguePenalty recentAdIds recentAdvertiserIds c
            formatPenalty := 0 })
    ∧ (rankCandidates candidates recentAdIds recentAdvertiserIds).Pairwise rankLE
    ∧ List.Perm (rankCandidates candidates recentAdIds recentAdvertiserIds)
        (candidates.map (rankOne recentAdIds recentAdvertiserIds))
    ∧ (∀ c, List.Sublist c (candidates.map (rankOne recentAdIds recentAdvertiserIds)) →
        c.Pairwise (fun a b => a.expectedValue = b.expectedValue) →
        List.Sublist c (rankCandidates candidates recentAdIds recentAdvertiserIds)) := by
  refine ⟨?_, List.sorted_insertionSort rankLE _, List.perm_insertionSort rankLE _, ?_⟩
  · intro c
    unfold rankOne specFatiguePenalty
    cases h1 : recentAdIds.contains (c.ad.id.getD []) <;>
      cases h2 : recentAdvertiserIds.contains c.ad.advertiserId <;>
        simp only [h1, h2, if_true, if_false, Bool.false_eq_true, RankingResult.mk.injEq,
          and_true, true_and] <;>
      constructor <;>
      norm_num [FATIGUE_SAME_AD_PENALTY, FATIGUE_SAME_ADVERTISER_PENALTY]
  · intro c hsub hties
    exact List.sublist_insertionSort
      (hties.imp (fun {a b} h => by unfold rankLE; rw [h])) hsub

/-- Witness for C5: the stability clause applied to the singleton ranking
of the sample ad. -/
theorem rankCandidates_spec_witness :
    List.Sublist [rankOne [] [] ⟨sampleAd, 1, .tag⟩]
      (rankCandidates [⟨sampleAd, 1, .tag⟩] [] []) :=
  (rankCandidates_spec [⟨sampleAd, 1, .tag⟩] [] []).2.2.2
    [rankOne [] [] ⟨sampleAd, 1, .tag⟩] (List.Sublist.refl _)
    (List.pairwise_singleton _ _)

/-- C10: `rankCandidates` never drops nor duplicates a candidate — the
output has the input's length, the `i`-th mapped entry (before sorting)
carries the `i`-th input candidate's ad, and the multiset of ads in the
output equals the multiset of ads in the input. -/
theorem rankCandidates_preserves (candidates : List ScoredCandidate)
    (recentAdIds recentAdvertiserIds : List Str) :
    (rankCandidates candidates recentAdIds recentAdvertiserIds).length = candidates.length
    ∧ (∀ i (h : i < candidates.length),
        ((candidates.map (rankOne recentAdIds recentAdvertiserIds)).get
          ⟨i, by rw [List.length_map]; exact h⟩).ad = (candidates.get ⟨i, h⟩).ad)
    ∧ List.Perm
        ((rankCandidates candidates recentAdIds recentAdvertiserIds).map RankingResult.ad)
        (candidates.map ScoredCandidate.ad) := by
  refine ⟨?_, ?_, ?_⟩
  · exact (List.perm_insertionSort rankLE _).length_eq.trans (List.length_map _ _)
  · intro i h
    simp [List.get_eq_getElem, List.getElem_map, rankOne]
  · have h1 := (List.perm_insertionSort rankLE
      (candidates.map (rankOne recentAdIds recentAdvertiserIds))).map RankingResult.ad
    rw [List.map_map] at h1
    have h2 : candidates.map (RankingResult.ad ∘ rankOne recentAdIds recentAdvertiserIds)
        = candidates.map ScoredCandidate.ad :=
      List.map_congr_left (fun c _ => rfl)
    rw [h2] at h1
    exact h1

/-- Witness for C10: the index clause at the singleton input. -/
theorem rankCandidates_preserves_witness :
    ((([⟨sampleAd, 1, .tag⟩] : List ScoredCandidate).map (rankOne [] [])).get
      ⟨0, by rw [List.length_map]; decide⟩).ad
    = (([⟨sampleAd, 1, .tag⟩] : List ScoredCandidate).get ⟨0, by decide⟩).ad :=
  (rankCandidates_preserves [⟨sampleAd, 1, .tag⟩] [] []).2.1 0 (by decide)

/-! ### Epsilon-greedy selection (C6 support) -/

theorem floor_draw_lt {r2 : ℚ} {n : Nat} (h2a : 0 ≤ r2) (h2b : r2 < 1) (hn : 0 < n) :
    (⌊r2 * (n : ℚ)⌋).toNat < n := by
  have hnq : (0 : ℚ) < (n : ℚ) := by exact_mod_cast hn
  have hnn : (0 : ℚ) ≤ r2 * (n : ℚ) := mul_nonneg h2a hnq.le
  have hlt : r2 * (n : ℚ) < (n : ℚ) := by
    calc r2 * (n : ℚ) < 1 * (n : ℚ) := mul_lt_mul_of_pos_right h2b hnq
      _ = (n : ℚ) := one_mul _
  have h1 : ⌊r2 * (n : ℚ)⌋ < (n : ℤ) := by
    rw [Int.floor_lt]
    exact_mod_cast hlt
  have h0 : 0 ≤ ⌊r2 * (n : ℚ)⌋ := Int.floor_nonneg.mpr hnn
  omega

theorem floor_draw_eq_iff {r2 : ℚ} {n : Nat} (h2a : 0 ≤ r2) (hn : 0 < n) (j : Nat) :
    ((⌊r2 * (n : ℚ)⌋).toNat = j ↔
      (j : ℚ) / (n : ℚ) ≤ r2 ∧ r2 < ((j : ℚ) + 1) / (n : ℚ)) := by
  have hnq : (0 : ℚ) < (n : ℚ) := by exact_mod_cast hn
  have h0 : 0 ≤ ⌊r2 * (n : ℚ)⌋ := Int.floor_nonneg.mpr (mul_nonneg h2a hnq.le)
  constructor
  · intro hj
    have hfloor : ⌊r2 * (n : ℚ)⌋ = (j : ℤ) := by omega
    rw [Int.floor_eq_iff] at hfloor
    obtain ⟨hle, hlt⟩ := hfloor
    constructor
    · rw [div_le_iff₀ hnq]
      exact_mod_cast hle
    · rw [lt_div_iff₀ hnq]
      push_cast at hlt ⊢
      linarith
  · rintro ⟨hle, hlt⟩
    have hle' : (j : ℚ) ≤ r2 * (n : ℚ) := by
      rw [div_le_iff₀ hnq] at hle
      exact hle
    have hlt' : r2 * (n : ℚ) < (j : ℚ) + 1 := by
      rw [lt_div_iff₀ hnq] at hlt
      exact hlt
    have hfloor : ⌊r2 * (n : ℚ)⌋ = (j : ℤ) := by
      rw [Int.floor_eq_iff]
      constructor
      · exact_mod_cast hle'
      · push_cast
        linarith
    omega

/-- C6: `selectWithExploration` returns `none` exactly on the empty list;
with `epsilon = 0` it returns the top-ranked candidate for every draw; and
with `epsilon = 1` the selection is `ranked[⌊r2·k⌋]` for `k = min 5 n` — an
index always strictly below `min 5 n`, so never the 6th-ranked or lower —
and the draw is uniform over exactly that slice: the draws selecting index
`j` are precisely the interval `j/k ≤ r2 < (j+1)/k` of length `1/k`. -/
theorem selectWithExploration_spec {α : Type} (ranked : List α) (epsilon r1 r2 : ℚ)
    (h1a : 0 ≤ r1) (h1b : r1 < 1) (h2a : 0 ≤ r2) (h2b : r2 < 1) :
    (selectWithExploration ranked epsilon r1 r2 = none ↔ ranked = [])
    ∧ (epsilon = 0 → selectWithExploration ranked epsilon r1 r2 = ranked.head?)
    ∧ (epsilon = 1 → ranked ≠ [] →
        ∃ i : Nat, i < min 5 ranked.length ∧
          i = (⌊r2 * ((min 5 ranked.length : Nat) : ℚ)⌋).toNat ∧
          selectWithExploration ranked epsilon r1 r2 = ranked[i]? ∧
          (∀ j : Nat, j < min 5 ranked.length →
            ((⌊r2 * ((min 5 ranked.length : Nat) : ℚ)⌋).toNat = j ↔
              (j : ℚ) / ((min 5 ranked.length : Nat) : ℚ) ≤ r2 ∧
              r2 < ((j : ℚ) + 1) / ((min 5 ranked.length : Nat) : ℚ)))) := by
  refine ⟨?_, ?_, ?_⟩
  · cases ranked with
    | nil => simp [selectWithExploration]
    | cons a l =>
      simp only [selectWithExploration]
      constructor
      · intro h
        split at h
        · next hexp =>
          have hlen : 0 < ((a :: l).take 5).length := by
            rw [List.length_take]
            simp
          have hidx := floor_draw_lt h2a h2b hlen
          rw [List.get?_eq_getElem?, List.getElem?_eq_getElem hidx] at h
          cases h
        · cases h
      · intro h
        cases h
  · intro he
    subst he
    cases ranked with
    | nil => simp [selectWithExploration]
    | cons a l =>
      simp only [selectWithExploration, List.head?]
      rw [if_neg (not_lt.mpr h1a)]
  · intro he hne
    subst he
    cases ranked with
    | nil => exact absurd rfl hne
    | cons a l =>
      have hk : 0 < min 5 (a :: l).length := by simp
      have hktake : ((a :: l).take 5).length = min 5 (a :: l).length :=
        List.length_take 5 (a :: l)
      refine ⟨(⌊r2 * ((min 5 (a :: l).length : Nat) : ℚ)⌋).toNat,
        floor_draw_lt h2a h2b hk, rfl, ?_, fun j _ => floor_draw_eq_iff h2a hk j⟩
      simp only [selectWithExploration]
      rw [if_pos h1b, hktake, List.get?_eq_getElem?]
      exact List.getElem?_take_of_lt
        (lt_of_lt_of_le (floor_draw_lt h2a h2b hk) (Nat.min_le_left 5 _))

/-- Witness for C6: with `epsilon = 0` and draws `1/2`, the head of a
three-element list is selected. -/
theorem selectWithExploration_spec_witness :
    selectWithExploration [10, 20, 30] 0 (1/2) (1/2) = some 10 := by
  have h := (selectWithExploration_spec [10, 20, 30] 0 (1/2) (1/2)
    (by with_unfolding_all decide) (by with_unfolding_all decide)
    (by with_unfolding_all decide) (by with_unfolding_all decide)).2.1 rfl
  simpa using h

/-- C8: `isV2Enabled` evaluates its rules in strict priority order — the
kill switch `V2_ENABLED=false` forces `false` for everyone regardless of
allow-list or percentage; else an allow-listed caller gets `true`; else
with a valid configured percentage the caller is enabled iff its
deterministic 0–99 hash bucket is strictly below the percentage; else the
global default `V2_ENABLED === "true"` decides. -/
theorem isV2Enabled_priority (env : V2Env) (appId : Str) :
    (env.v2Enabled = some ("false".toList) → isV2Enabled env appId = false)
    ∧ (env.v2Enabled ≠ some ("false".toList) → onAllowList env appId = true →
        isV2Enabled env appId = true)
    ∧ (∀ p : Int, env.v2Enabled ≠ some ("false".toList) → onAllowList env appId = false →
        validPercentage env = some p →
        (isV2Enabled env appId = true ↔ (hashAppId appId : Int) < p))
    ∧ (env.v2Enabled ≠ some ("false".toList) → onAllowList env appId = false →
        validPercentage env = none →
        isV2Enabled env appId = (env.v2Enabled == some ("true".toList)))
    ∧ hashAppId appId < 100 := by
  refine ⟨fun h => ?_, fun h1 h2 => ?_, fun p h1 h2 h3 => ?_, fun h1 h2 h3 => ?_, ?_⟩
  · simp [isV2Enabled, h]
  · have hb : (env.v2Enabled == some ("false".toList)) = false := by
      simpa using h1
    simp only [isV2Enabled, hb, Bool.false_eq_true, if_false, h2, if_true]
  · have hb : (env.v2Enabled == some ("false".toList)) = false := by
      simpa using h1
    simp only [isV2Enabled, hb, Bool.false_eq_true, if_false, h2, h3]
    exact decide_eq_true_iff
  · have hb : (env.v2Enabled == some ("false".toList)) = false := by
      simpa using h1
    simp only [isV2Enabled, hb, Bool.false_eq_true, if_false, h2, h3]
  · exact Nat.mod_lt _ (by norm_num)

/-- Witness for C8: with `V2_ENABLED=true`, no allow-list and
`V2_PERCENTAGE=50`, a caller is enabled iff its hash bucket is below 50. -/
theorem isV2Enabled_priority_witness :
    isV2Enabled ⟨some ("true".toList), none, some ("50".toList), none⟩ ("app-1".toList) = true
      ↔ (hashAppId ("app-1".toList) : Int) < 50 :=
  (isV2Enabled_priority ⟨some ("true".toList), none, some ("50".toList), none⟩
      ("app-1".toList)).2.2.1 50 (by decide) (by decide) (by decide)

/-- C9: `toEnglish` never raises — it is total, returns its input
unchanged when the source language is English, returns the input on any
translation failure, and in every case yields either the original text or
a successfully translated text. -/
theorem toEnglish_total (attempt : Str → Str → Except Str (Option Str))
    (text sourceLanguage : Str) :
    (sourceLanguage = "eng".toList → toEnglish attempt text sourceLanguage = text)
    ∧ (∀ e, attempt text (mapLang sourceLanguage) = .error e →
        toEnglish attempt text sourceLanguage = text)
    ∧ (toEnglish attempt text sourceLanguage = text
       ∨ ∃ t, attempt text (mapLang sourceLanguage) = .ok (some t) ∧
           toEnglish attempt text sourceLanguage = t) := by
  refine ⟨fun h => by simp only [toEnglish]; rw [if_pos h], fun e he => ?_, ?_⟩
  · by_cases h : sourceLanguage = "eng".toList
    · simp only [toEnglish]
      rw [if_pos h]
    · simp only [toEnglish]
      rw [if_neg h, he]
  · by_cases h : sourceLanguage = "eng".toList
    · exact Or.inl (by simp only [toEnglish]; rw [if_pos h])
    · cases hat : attempt text (mapLang sourceLanguage) with
      | error e => exact Or.inl (by simp only [toEnglish]; rw [if_neg h, hat])
      | ok translated =>
        cases translated with
        | none => exact Or.inl (by simp only [toEnglish]; rw [if_neg h, hat]; rfl)
        | some t =>
          refine Or.inr ⟨t, rfl, ?_⟩
          simp only [toEnglish]
          rw [if_neg h, hat]
          rfl

/-- Witness for C9: a failing translation collaborator leaves the text
unchanged. -/
theorem toEnglish_total_witness :
    toEnglish (fun _ _ => .error ("x".toList)) ("hola".toList) ("spa".toList)
      = "hola".toList :=
  (toEnglish_total (fun _ _ => .error ("x".toList)) ("hola".toList)
    ("spa".toList)).2.1 ("x".toList) rfl

/-- C3: `decideAdV2` is fail-closed — below the 0.3 opportunity threshold
it returns no item with the score and intent populated and zero
candidate/ranking timings; otherwise with an empty candidate set it
returns no item with candidate count 0; and every exit path returns a
fully populated metadata record whose phase timings are the differences
of independent clock readings per executed phase plus a cumulative total
measured from the start of the call. -/
theorem decideAdV2_fail_closed (deps : V2Deps) (contextText language : Str)
    (recentAdIds recentAdvertiserIds : List Str) :
    ((scoreOpportunity contextText language).score < T_LOW →
      decideAdV2 deps contextText language recentAdIds recentAdvertiserIds =
        (none, createEmptyMeta (scoreOpportunity contextText language).score
          (scoreOpportunity contextText language).intent
          ⟨deps.clk 2 - deps.clk 1, 0, 0, deps.clk 3 - deps.clk 0⟩))
    ∧ (¬ (scoreOpportunity contextText language).score < T_LOW →
       generateCandidates deps.translate deps.activeAds contextText language none = [] →
      decideAdV2 deps contextText language recentAdIds recentAdvertiserIds =
        (none, createEmptyMeta (scoreOpportunity contextText language).score
          (scoreOpportunity contextText language).intent
          ⟨deps.clk 2 - deps.clk 1, deps.clk 4 - deps.clk 3, 0, deps.clk 5 - deps.clk 0⟩))
    ∧ ((decideAdV2 deps contextText language recentAdIds recentAdvertiserIds).2.oppScore =
          (scoreOpportunity contextText language).score
       ∧ (decideAdV2 deps contextText language recentAdIds recentAdvertiserIds).2.oppIntent =
          (scoreOpportunity contextText language).intent
       ∧ ((decideAdV2 deps contextText language recentAdIds recentAdvertiserIds).2.phaseTimings =
            ⟨deps.clk 2 - deps.clk 1, 0, 0, deps.clk 3 - deps.clk 0⟩
          ∨ (decideAdV2 deps contextText language recentAdIds recentAdvertiserIds).2.phaseTimings =
            ⟨deps.clk 2 - deps.clk 1, deps.clk 4 - deps.clk 3, 0, deps.clk 5 - deps.clk 0⟩
          ∨ (decideAdV2 deps contextText language recentAdIds recentAdvertiserIds).2.phaseTimings =
            ⟨deps.clk 2 - deps.clk 1, deps.clk 4 - deps.clk 3, deps.clk 6 - deps.clk 5,
             deps.clk 7 - deps.clk 0⟩)) := by
  refine ⟨fun hlow => ?_, fun hlow hempty => ?_, ?_⟩
  · simp only [decideAdV2]
    rw [if_pos hlow]
  · simp only [decideAdV2]
    rw [if_neg hlow, hempty]
    simp [createEmptyMeta]
  · simp only [decideAdV2]
    split
    · exact ⟨rfl, rfl, Or.inl rfl⟩
    · split
      · exact ⟨rfl, rfl, Or.inr (Or.inl rfl)⟩
      · split
        · exact ⟨rfl, rfl, Or.inr (Or.inr rfl)⟩
        · exact ⟨rfl, rfl, Or.inr (Or.inr rfl)⟩

/-- Sample collaborators for a concrete `decideAdV2` call: identity
translation, the one-ad catalog, a constant advertiser, the clock reading
`n` at its `n`-th call, and fixed random draws. -/
def sampleDeps : V2Deps :=
  { translate := fun t _ => t
    activeAds := [sampleAd]
    getAdvertiser := fun _ => some ⟨"Acme".toList⟩
    clk := fun n => (n : ℚ)
    r1 := 1/2
    r2 := 0 }

/-- Witness for C3: `"hello"` is chitchat (score 0.1 < 0.3), so the call
exits with no item and zeroed candidate/ranking timings. -/
theorem decideAdV2_fail_closed_witness :
    decideAdV2 sampleDeps ("hello".toList) ("eng".toList) [] [] =
      (none, createEmptyMeta (scoreOpportunity ("hello".toList) ("eng".toList)).score
        (scoreOpportunity ("hello".toList) ("eng".toList)).intent
        ⟨sampleDeps.clk 2 - sampleDeps.clk 1, 0, 0,
         sampleDeps.clk 3 - sampleDeps.clk 0⟩) :=
  (decideAdV2_fail_closed sampleDeps ("hello".toList) ("eng".toList) [] []).1
    (by with_unfolding_all decide)
